import Mathlib

/-!
Verification development for the request-admission and lifecycle-control
layer of the nimble-miners repository (`model/lib/blacklist.py`,
`model/lib/miner.py`, `model/lib/run.py`).

The Python source is embedded shallowly: the mutable miner object becomes an
explicit `MinerState` record, Python dicts become insertion-ordered
association lists, `time.time()` and the chain's current block become
explicit arguments, and code paths that raise an uncaught exception are
modelled by an `Option`/`Except` result with `none`/`error` standing for the
raised exception.
-/

namespace NimbleMiners

/-! ## Model of the external `hashlib.sha256(...).hexdigest()` primitive

`is_request_in_cache` (blacklist.py line 31) calls the external `hashlib`
library.  We embed a concrete executable SHA-256 over byte lists so that the
fingerprint computation is a real function of the serialized message list.
All arithmetic is `Nat` reduced mod `2^32` where the C implementation

wraps. -/

def w32 : Nat := 4294967296

def rotr32 (n x : Nat) : Nat :=
  ((x >>> n) ||| (x <<< (32 - n))) % w32

def shaCh (x y z : Nat) : Nat := ((x &&& y) ^^^ ((x ^^^ 4294967295) &&& z)) % w32

def shaMaj (x y z : Nat) : Nat := ((x &&& y) ^^^ (x &&& z) ^^^ (y &&& z)) % w32

def bigSigma0 (x : Nat) : Nat := (rotr32 2 x) ^^^ (rotr32 13 x) ^^^ (rotr32 22 x)

def bigSigma1 (x : Nat) : Nat := (rotr32 6 x) ^^^ (rotr32 11 x) ^^^ (rotr32 25 x)

def smallSigma0 (x : Nat) : Nat := (rotr32 7 x) ^^^ (rotr32 18 x) ^^^ (x >>> 3)

def smallSigma1 (x : Nat) : Nat := (rotr32 17 x) ^^^ (rotr32 19 x) ^^^ (x >>> 10)

/-- The 64 SHA-256 round constants, written in decimal. -/
def shaK : List Nat :=
  [1116352408, 1899447441, 3049323471, 3921009573,
   961987163, 1508970993, 2453635748, 2870763221,
   3624381080, 310598401, 607225278, 1426881987,
   1925078388, 2162078206, 2614888103, 3248222580,
   3835390401, 4022224774, 264347078, 604807628,
   770255983, 1249150122, 1555081692, 1996064986,
   2554220882, 2821834349, 2952996808, 3210313671,
   3336571891, 3584528711, 113926993, 338241895,
   666307205, 773529912, 1294757372, 1396182291,
   1695183700, 1986661051, 2177026350, 2456956037,
   2730485921, 2820302411, 3259730800, 3345764771,
   3516065817, 3600352804, 4094571909, 275423344,
   430227734, 506948616, 659060556, 883997877,
   958139571, 1322822218, 1537002063, 1747873779,
   1955562222, 2024104815, 2227730452, 2361852424,
   2428436474, 2756734187, 3204031479, 3329325298]

/-- The eight SHA-256 initial state words, written in decimal. -/
def shaInitH : List Nat :=
  [1779033703, 3144134277, 1013904242, 2773480762,
   1359893119, 2600822924, 528734635, 1541459225]

/-- Big-endian byte decomposition of `n` into `k` bytes. -/
def beBytes : Nat → Nat → List Nat
  | 0, _ => []
  | k + 1, n => beBytes k (n / 256) ++ [n % 256]

/-- SHA-256 padding: append `0x80`, zero bytes to 56 mod 64, then the
bit length as 8 big-endian bytes. -/
def shaPad (msg : List Nat) : List Nat :=
  let padLen := (64 - ((msg.length + 9) % 64)) % 64
  msg ++ [0x80] ++ List.replicate padLen 0 ++ beBytes 8 (msg.length * 8)

/-- Group a byte list into 32-bit big-endian words (fuel-driven so the
kernel can reduce it). -/
def bytesToWords : Nat → List Nat → List Nat
  | 0, _ => []
  | _, [] => []
  | fuel + 1, b0 :: b1 :: b2 :: b3 :: rest =>
      (b0 * 16777216 + b1 * 65536 + b2 * 256 + b3) :: bytesToWords fuel rest
  | _ + 1, _ => []

/-- Split a word list into 16-word chunks (fuel-driven). -/
def wordChunks : Nat → List Nat → List (List Nat)
  | 0, _ => []
  | _, [] => []
  | fuel + 1, ws => ws.take 16 :: wordChunks fuel (ws.drop 16)

/-- Extend a 16-word block to the 64-entry message schedule. -/
def extendSchedule : Nat → List Nat → List Nat
  | 0, ws => ws
  | n + 1, ws =>
      let t := ws.length
      let newWord :=
        (smallSigma1 (ws.getD (t - 2) 0) + ws.getD (t - 7) 0 +
         smallSigma0 (ws.getD (t - 15) 0) + ws.getD (t - 16) 0) % w32
      extendSchedule n (ws ++ [newWord])

/-- One round of the SHA-256 compression function. -/
def shaRound (state : List Nat) (kw : Nat × Nat) : List Nat :=
  match state with
  | [a, b, c, d, e, f, g, h] =>
      let t1 := (h + bigSigma1 e + shaCh e f g + kw.1 + kw.2) % w32
      let t2 := (bigSigma0 a + shaMaj a b c) % w32
      [(t1 + t2) % w32, a, b, c, (d + t1) % w32, e, f, g]
  | s => s

/-- Process one 16-word chunk, updating the 8-word hash state. -/
def shaChunk (hs : List Nat) (chunk : List Nat) : List Nat :=
  let ws := extendSchedule 48 chunk
  let final := (shaK.zip ws).foldl shaRound hs
  (hs.zip final).map (fun p => (p.1 + p.2) % w32)

/-- SHA-256 of a byte list, as the list of eight 32-bit state words. -/
def sha256Words (msg : List Nat) : List Nat :=
  let padded := shaPad msg
  let ws := bytesToWords padded.length padded
  (wordChunks ws.length ws).foldl shaChunk shaInitH

def hexDigitChar (n : Nat) : Char :=
  if n < 10 then Char.ofNat (48 + n) else Char.ofNat (87 + n)

/-- Lower-case hexadecimal rendering of `n` on `k` digits, big-endian. -/
def hexNat : Nat → Nat → List Char
  | 0, _ => []
  | k + 1, n => hexNat k (n / 16) ++ [hexDigitChar (n % 16)]

/-- Model of `hashlib.sha256(bytes).hexdigest()`: the 64-character
lower-case hex digest. -/
def sha256Hex (msg : List Nat) : String :=
  ⟨((sha256Words msg).map (hexNat 8)).flatten⟩

/-! ## Model of Python's `str.encode()` (UTF-8) and `json.dumps` -/

/-- UTF-8 encoding of one character. -/
def utf8EncodeChar (c : Char) : List Nat :=
  let n := c.toNat
  if n < 128 then [n]
  else if n < 2048 then [192 ||| (n >>> 6), 128 ||| (n &&& 63)]
  else if n < 65536 then
    [224 ||| (n >>> 12), 128 ||| ((n >>> 6) &&& 63), 128 ||| (n &&& 63)]
  else
    [240 ||| (n >>> 18), 128 ||| ((n >>> 12) &&& 63),
     128 ||| ((n >>> 6) &&& 63), 128 ||| (n &&& 63)]

/-- Model of Python `s.encode()`: UTF-8 bytes of a string. -/
def utf8Bytes (s : String) : List Nat :=
  (s.data.map utf8EncodeChar).flatten

/-- `json.dumps` escaping of one character with the default
`ensure_ascii=True`: printable ASCII passes through, the two-character
escapes are used where Python uses them, everything else becomes
`\uXXXX` (with surrogate pairs above the BMP). -/
def jsonEscapeChar (c : Char) : List Char :=
  let n := c.toNat
  if c = '"' then ['\\', '"']
  else if c = '\\' then ['\\', '\\']
  else if n = 8 then ['\\', 'b']
  else if n = 9 then ['\\', 't']
  else if n = 10 then ['\\', 'n']
  else if n = 12 then ['\\', 'f']
  else if n = 13 then ['\\', 'r']
  else if 32 ≤ n ∧ n ≤ 126 then [c]
  else if n < 65536 then '\\' :: 'u' :: hexNat 4 n
  else
    let m := n - 65536
    ('\\' :: 'u' :: hexNat 4 (55296 + (m >>> 10))) ++
    ('\\' :: 'u' :: hexNat 4 (56320 + (m &&& 1023)))

def jsonEscapeString (s : String) : String :=
  "\"" ++ ⟨(s.data.map jsonEscapeChar).flatten⟩ ++ "\""

/-- Model of `json.dumps(list_of_strings)` with the default separator:
`["a", "b"]`. -/
def jsonDumps (messages : List String) : String :=
  "[" ++ String.intercalate ", " (messages.map jsonEscapeString) ++ "]"

/-! ## Data model

`model/inference.py` is not part of the supplied source.  Modelled from the
spec: a request (`Inference` synapse) exposes an ordered message sequence
and the caller identity `synapse.dendrite.hotkey` (spec §3 HotkeyIdentity,
§6 "a request object exposing: ordered message sequence, caller identity").
Messages are modelled as strings. -/

structure Dendrite where
  hotkey : String
deriving Repr, DecidableEq

structure Inference where
  messages : List String
  dendrite : Dendrite
deriving Repr, DecidableEq

/-- The slice of the externally supplied metagraph that the source reads:
`metagraph.hotkeys`, `metagraph.validator_permit`, `metagraph.block`.
`Miner.__init__` (miner.py line 90) always assigns a metagraph before the
axon is attached, so the field is modelled as always present; the
defensive `self.metagraph is not None` conjunct of blacklist.py line 70 is
then always true. -/
structure Metagraph where
  hotkeys : List String
  validator_permit : List Bool
  block : Nat
deriving Repr, DecidableEq

/-- The recognized `config.miner.blacklist.*` options (flattened), spec §6. -/
structure BlacklistConfig where
  whitelist : List String
  blacklist : List String
  allow_non_registered : Bool
  force_validator_permit : Bool
  min_request_period : Nat
  use_request_cache : Bool
  request_cache_block_span : Nat
deriving Repr, DecidableEq

/-- The mutable miner attributes read by the embedded functions.  Python
dicts are insertion-ordered, so `request_cache` and `request_timestamps`
become association lists in insertion order.  Timestamps are integer
seconds (the source uses `time.time()` floats; the claims only involve
whole-second offsets). -/
structure MinerState where
  config : BlacklistConfig
  metagraph : Metagraph
  request_cache : List (String × Nat)
  request_timestamps : List (String × List Int)
deriving Repr, DecidableEq

/-- First entry of an association list with the given key (Python dict
lookup on a dict with unique keys). -/
def findEntry (l : List (String × α)) (k : String) : Option (String × α) :=
  l.find? (fun e => e.1 == k)

/-- Python `k in d` for a dict modelled as an association list. -/
def containsKey (l : List (String × α)) (k : String) : Bool :=
  (findEntry l k).isSome

/-- Python `d[k]` (as an `Option`; `none` models a `KeyError`). -/
def lookupVal (l : List (String × α)) (k : String) : Option α :=
  (findEntry l k).map (·.2)

/-! ## `model/lib/blacklist.py` -/

/-- blacklist.py lines 30–31: the request fingerprint,
`hashlib.sha256(json.dumps(list(synapse.messages)).encode()).hexdigest()`.
It reads only `synapse.messages`. -/
def requestKeyOf (synapse : Inference) : String :=
  sha256Hex (utf8Bytes (jsonDumps synapse.messages))

/-- blacklist.py lines 26–55, `is_request_in_cache` (the body of the
`async with self.lock` critical section): membership test on the
fingerprint, insert-if-absent of `fingerprint → current_block`, then the
sweep deleting every entry with `block + request_cache_block_span <
current_block`.  Returns `should_blacklist` and the updated state. -/
def is_request_in_cache (self : MinerState) (synapse : Inference) : Bool × MinerState :=
  let request_key := requestKeyOf synapse
  let current_block := self.metagraph.block
  -- Check if request is in cache, if not add it
  let should_blacklist := containsKey self.request_cache request_key
  let cache1 :=
    if should_blacklist then self.request_cache
    else self.request_cache ++ [(request_key, current_block)]
  -- Sanitize cache by removing old entries according to block span
  let span := self.config.request_cache_block_span
  let cache2 := cache1.filter (fun e => !decide (e.2 + span < current_block))
  (should_blacklist, { self with request_cache := cache2 })

/-- The rate-limit rejection reason of blacklist.py line 90 (the f-string
`f"{hotkey} request frequency exceeded {count} requests in {period}
minutes."`). -/
def rateLimitReason (hotkey : String) (count : Nat) (period : Nat) : String :=
  hotkey ++ " request frequency exceeded " ++ toString count ++ " requests in " ++
    toString period ++ " minutes."

/-- blacklist.py lines 84–94, the rate-limit tail of `default_blacklist`:
reject when the elapsed time since the caller's earliest recorded
timestamp is below `min_request_period` minutes, otherwise pass.  `none`
models the source's IndexError on `[0]` of an empty timestamp list. -/
def rateLimitRule (now : Int) (self : MinerState) (hk : String) : Option (Bool × String) :=
  -- request period
  match lookupVal self.request_timestamps hk with
  | some ts =>
    match ts.head? with
    | some t0 =>
      let period := now - t0
      if period < (self.config.min_request_period : Int) * 60 then
        some (true, rateLimitReason hk ts.length self.config.min_request_period)
      -- Otherwise the user is not blacklisted.
      else some (false, "passed blacklist")
    | none => none
  | none => some (false, "passed blacklist")

/-- blacklist.py lines 58–94, `default_blacklist`.  `now` is `time.time()`.
`none` models an uncaught exception (IndexError on an empty recorded
timestamp list, or indexing `validator_permit` out of range); the source
never reaches those on well-formed state (`WFMiner`). -/
def default_blacklist (now : Int) (self : MinerState) (synapse : Inference) :
    Option (Bool × String) :=
  let hk := synapse.dendrite.hotkey
  -- Check if the key is white listed.
  if hk ∈ self.config.whitelist then some (false, "whitelisted hotkey")
  -- Check if the key is black listed.
  else if hk ∈ self.config.blacklist then some (true, "blacklisted hotkey")
  -- Check registration if we do not allow non-registered users
  -- (the `self.metagraph is not None` conjunct is always true, see `Metagraph`)
  else if self.config.allow_non_registered = false ∧ hk ∉ self.metagraph.hotkeys then
    some (true, "hotkey not registered")
  -- Check if the key has validator permit
  else if self.config.force_validator_permit then
    if hk ∈ self.metagraph.hotkeys then
      match self.metagraph.validator_permit[self.metagraph.hotkeys.indexOf hk]? with
      | some p =>
          if p = false then some (true, "validator permit required")
          else rateLimitRule now self hk
      | none => none
    else some (true, "validator permit required, but hotkey not registered")
  else rateLimitRule now self hk

/-- The possible behaviours of the subclass blacklist override `func` in
blacklist.py line 107: it raises `NotImplementedError`, raises some other
exception, or returns a Python value.  The returned values exercised by
the wrapper are `None`, a bare truth value (no `__len__`), or a length-2
sequence unpacked as `(verdict, reason)` whose verdict may itself be
`None`. -/
inductive PyRet where
  | pyNone
  | pyBool (b : Bool)
  | pyPair (verdict : Option Bool) (reason : String)
deriving Repr, DecidableEq

inductive OverrideResult where
  | raisesNotImplemented
  | raisesOther
  | returns (v : PyRet)
deriving Repr, DecidableEq

/-- blacklist.py lines 97–140, the `blacklist` wrapper.  The try/except
unpacking and the `finally` block (`if does_blacklist == None` →
`default_blacklist`, then `return`) collapse to this case analysis; the
`return` inside `finally` is what makes every exception path end in a
returned decision.  `none` models the only way out without a value: the
fall-back call of `default_blacklist` itself raising on ill-formed
state. -/
def blacklist (now : Int) (self : MinerState) (func : OverrideResult)
    (synapse : Inference) : Option (Bool × String) :=
  match func with
  | .raisesNotImplemented =>
      -- The subclass did not override the blacklist function.
      default_blacklist now self synapse
  | .raisesOther =>
      -- There was an error in their blacklist function.
      default_blacklist now self synapse
  | .returns .pyNone =>
      -- `does_blacklist == None` in the finally block.
      default_blacklist now self synapse
  | .returns (.pyBool b) => some (b, "no reason provided")
  | .returns (.pyPair none _) => default_blacklist now self synapse
  | .returns (.pyPair (some b) reason) => some (b, reason)

/-- miner.py lines 243–246: `Miner.blacklist` installs an override that
always raises `NotImplementedError`, so the wrapper always uses the
default chain. -/
def Miner.blacklist (now : Int) (self : MinerState) (synapse : Inference) :
    Option (Bool × String) :=
  NimbleMiners.blacklist now self .raisesNotImplemented synapse

/-! ## `model/lib/miner.py`: the admission wrapper `_predict` -/

/-- miner.py line 193 evaluates `if is_request_in_cache(self, synapse):`.
`is_request_in_cache` is declared `async def` (blacklist.py line 26) and
the call is not awaited, so in Python the condition is a coroutine
object, and a coroutine object is truthy regardless of the cached state;
the coroutine body (the cache lookup, insert and sweep) never runs. -/
def unawaitedCoroutineTruthy : Bool := true

/-- The `ValueError` message of miner.py lines 194–196 (the f-string
`f"Blacklisted: Request sent recently in last {span} blocks."`). -/
def cacheRejectMessage (span : Nat) : String :=
  "Blacklisted: Request sent recently in last " ++ toString span ++ " blocks."

/-- miner.py lines 169–197, `_predict`: the admission wrapper around the
abstract subclass `predict` (passed here as a function argument).
`Except.error` models the raised `ValueError`, carrying its message. -/
def Miner._predict (self : MinerState) (synapse : Inference)
    (predict : Inference → Inference) : Except String Inference :=
  if self.config.use_request_cache then
    if unawaitedCoroutineTruthy then
      Except.error (cacheRejectMessage self.config.request_cache_block_span)
    else Except.ok (predict synapse)
  else Except.ok (predict synapse)

/-- Modelled from the spec: the admission behaviour that miner.py's
`_predict` docstring and spec §4.3 describe — await the dedup-cache check
`is_request_in_cache` and reject exactly on a duplicate, otherwise
delegate to `predict` (the state update of the awaited call threaded
through).  This is the intended semantics that the unawaited call in the
source fails to implement. -/
def Miner.predictIntended (self : MinerState) (synapse : Inference)
    (predict : Inference → Inference) : Except String Inference × MinerState :=
  if self.config.use_request_cache then
    let r := is_request_in_cache self synapse
    if r.1 then
      (Except.error (cacheRejectMessage self.config.request_cache_block_span), r.2)
    else (Except.ok (predict synapse), r.2)
  else (Except.ok (predict synapse), self)

/-! ## `model/lib/run.py`: the epoch control loop

`run` is modelled at epoch-iteration granularity.  One iteration of the
`while not self.should_exit` body (run.py lines 81–128) busy-waits to the
epoch boundary, refreshes `last_epoch_block`, fetches the metagraph, logs,
optionally sets weights, and ends with `step += 1`.  The external world is
an oracle: `shouldExit i` is the value of `self.should_exit` read at the
top of iteration `i`, and `events i` says whether iteration `i`'s body
runs to completion, raises an `Exception` (e.g. a chain-query failure), or
raises `KeyboardInterrupt`.  The `try` at line 79 wraps the whole `while`
loop; its handlers are run.py lines 131–138. -/

inductive IterEvent where
  | ok
  | raises
  | interrupt
deriving Repr, DecidableEq

/-- How the `run` function terminates.  `axonStopped` records whether
`self.axon.stop()` was called on the way out. -/
inductive RunOutcome where
  /-- The `while` condition saw `should_exit`; `run` returns normally
  (no handler runs, `self.axon.stop()` is not called). -/
  | normalReturn (step : Nat) (axonStopped : Bool)
  /-- An `Exception` escaped the loop into `except Exception` (line 137):
  the traceback is logged and `run` returns; the loop is over. -/
  | errorReturn (step : Nat) (axonStopped : Bool)
  /-- `KeyboardInterrupt` reached the handler at line 131: `axon.stop()`,
  success log, `exit()` (a clean process exit, not an error). -/
  | interruptExit (step : Nat) (axonStopped : Bool)
  /-- Fuel ran out while the loop was still running (the source loop can
  run forever). -/
  | stillRunning (step : Nat)
deriving Repr, DecidableEq

/-- The `while not self.should_exit` loop of run.py lines 80–128 together
with the surrounding `try/except` of lines 79–138.  `i` is the iteration
index, `step` the local `step` counter (incremented at line 128, i.e.
only when an iteration's body completes). -/
def runLoop (shouldExit : Nat → Bool) (events : Nat → IterEvent) :
    Nat → Nat → Nat → RunOutcome
  | 0, _, step => .stillRunning step
  | fuel + 1, i, step =>
    if shouldExit i then .normalReturn step false
    else
      match events i with
      | .ok => runLoop shouldExit events fuel (i + 1) (step + 1)
      | .raises => .errorReturn step false
      | .interrupt => .interruptExit step true

/-- run.py lines 50–138: the registration check at entry (`exit()` if the
hotkey is not registered — modelled by `none`), then the main loop
starting at `step = 0`. -/
def run (registered : Bool) (shouldExit : Nat → Bool) (events : Nat → IterEvent)
    (fuel : Nat) : Option RunOutcome :=
  if registered = false then none
  else some (runLoop shouldExit events fuel 0 0)

/-! ## Auxiliary definitions used by the claims -/

/-- Replace the chain height the cache reads (`self.metagraph.block`). -/
def setBlock (self : MinerState) (b : Nat) : MinerState :=
  { self with metagraph := { self.metagraph with block := b } }

/-- A sequence of admission-cache calls, each at its own chain height:
models repeated queries against the dedup cache as the chain advances. -/
def processRequests (self : MinerState) : List (Inference × Nat) → MinerState
  | [] => self
  | (syn, b) :: rest => processRequests (is_request_in_cache (setBlock self b) syn).2 rest

/-- Runtime well-formedness of the miner state: every recorded
timestamp list is non-empty (an entry is only ever created by recording a
request time), and the metagraph's permit bitmap covers its hotkey list
(the chain delivers them aligned).  Exactly what is needed for
`default_blacklist` not to raise. -/
def WFMiner (self : MinerState) : Prop :=
  (∀ p ∈ self.request_timestamps, p.2 ≠ []) ∧
  self.metagraph.hotkeys.length ≤ self.metagraph.validator_permit.length

/-! ## Association-list lemmas -/

theorem findEntry_eq_none {l : List (String × α)} {k : String} :
    findEntry l k = none ↔ ∀ e ∈ l, e.1 ≠ k := by
  simp [findEntry, List.find?_eq_none]

theorem findEntry_some_spec {l : List (String × α)} {k : String} {e : String × α}
    (h : findEntry l k = some e) : e.1 = k ∧ e ∈ l := by
  refine ⟨?_, List.mem_of_find?_eq_some h⟩
  have := List.find?_some h
  simpa using this

theorem findEntry_append {l₁ l₂ : List (String × α)} {k : String} :
    findEntry (l₁ ++ l₂) k = (findEntry l₁ k).or (findEntry l₂ k) := by
  simp [findEntry, List.find?_append]

theorem containsKey_false_iff {l : List (String × α)} {k : String} :
    containsKey l k = false ↔ ∀ e ∈ l, e.1 ≠ k := by
  rw [← findEntry_eq_none]
  cases h : findEntry l k <;> simp [containsKey, h]

theorem containsKey_true_iff {l : List (String × α)} {k : String} :
    containsKey l k = true ↔ ∃ e ∈ l, e.1 = k := by
  rw [containsKey, Option.isSome_iff_exists]
  constructor
  · rintro ⟨e, he⟩
    obtain ⟨h1, h2⟩ := findEntry_some_spec he
    exact ⟨e, h2, h1⟩
  · rintro ⟨e, he, hk⟩
    rcases h : findEntry l k with _ | e'
    · exact absurd hk (findEntry_eq_none.mp h e he)
    · exact ⟨e', rfl⟩

theorem lookupVal_some_spec {l : List (String × α)} {k : String} {b : α}
    (h : lookupVal l k = some b) : (k, b) ∈ l := by
  rw [lookupVal] at h
  rcases he : findEntry l k with _ | e
  · simp [he] at h
  · obtain ⟨h1, h2⟩ := findEntry_some_spec he
    simp only [he, Option.map_some] at h
    obtain rfl : e.2 = b := by simpa using h
    rwa [← h1, Prod.mk.eta]

theorem findEntry_of_lookupVal {l : List (String × α)} {k : String} {b : α}
    (h : lookupVal l k = some b) : findEntry l k = some (k, b) := by
  rcases he : findEntry l k with _ | e
  · rw [lookupVal, he] at h
    simp at h
  · obtain ⟨h1, _⟩ := findEntry_some_spec he
    rw [lookupVal, he] at h
    obtain rfl : e.2 = b := by simpa using h
    rw [← h1]

/-- On an association list with no repeated key, looking a key up in a
filtered version finds the unique entry exactly when the filter kept it. -/
theorem findEntry_filter_nodup {l : List (String × α)} {p : String × α → Bool}
    {k : String} {e : String × α} (hnd : (l.map Prod.fst).Nodup)
    (h : findEntry l k = some e) :
    findEntry (l.filter p) k = if p e then some e else none := by
  induction l with
  | nil => simp [findEntry] at h
  | cons a t ih =>
    rw [List.map_cons] at hnd
    obtain ⟨hka, hnd'⟩ := List.nodup_cons.mp hnd
    by_cases hak : a.1 = k
    · have hbeq : (a.1 == k) = true := beq_iff_eq.mpr hak
      have hae : e = a := by
        rw [findEntry, List.find?_cons, hbeq] at h
        exact (Option.some.injEq _ _ ▸ h).symm
      subst hae
      have htk : ∀ e' ∈ t, e'.1 ≠ k := by
        intro e' he' hk'
        have hm : e'.1 ∈ t.map Prod.fst := List.mem_map_of_mem Prod.fst he'
        rw [hk', ← hak] at hm
        exact hka hm
      by_cases hp : p e = true
      · simp only [List.filter_cons, hp, if_pos, reduceIte]
        rw [findEntry, List.find?_cons, hbeq]
      · have hp' : p e = false := by simpa using hp
        simp only [List.filter_cons, hp', Bool.false_eq_true, reduceIte]
        rw [findEntry_eq_none.mpr fun e' he' => htk e' (List.mem_of_mem_filter he')]
    · have hbeq : (a.1 == k) = false := beq_eq_false_iff_ne.mpr hak
      have ht : findEntry t k = some e := by
        have h' := h
        rw [findEntry, List.find?_cons, hbeq] at h'
        exact h'
      have hstep := ih hnd' ht
      by_cases hp : p a = true
      · simp only [List.filter_cons, hp, reduceIte]
        rw [findEntry, List.find?_cons, hbeq]
        exact hstep
      · have hp' : p a = false := by simpa using hp
        simp only [List.filter_cons, hp', Bool.false_eq_true, reduceIte]
        exact hstep

theorem nodup_keys_filter {l : List (String × α)} (p : String × α → Bool)
    (h : (l.map Prod.fst).Nodup) : ((l.filter p).map Prod.fst).Nodup :=
  (List.Sublist.map Prod.fst (List.filter_sublist l)).nodup h

theorem nodup_keys_append_fresh {l : List (String × α)} {k : String} {b : α}
    (h : (l.map Prod.fst).Nodup) (hk : containsKey l k = false) :
    ((l ++ [(k, b)]).map Prod.fst).Nodup := by
  rw [List.map_append, List.nodup_append]
  refine ⟨h, by simp, ?_⟩
  rw [List.disjoint_left]
  intro x hx hx'
  obtain ⟨e, he, rfl⟩ := List.mem_map.mp hx
  have hxk : e.1 = k := by simpa using hx'
  exact containsKey_false_iff.mp hk e he hxk

/-! ## Structure of one dedup-cache call -/

/-- `is_request_in_cache` unfolded: the membership verdict, and the cache
after insert-if-absent and the sweep. -/
theorem is_request_in_cache_eq (self : MinerState) (synapse : Inference) :
    is_request_in_cache self synapse =
      (containsKey self.request_cache (requestKeyOf synapse),
       { self with request_cache := List.filter (fun e => !decide (e.2 + self.config.request_cache_block_span < self.metagraph.block)) (if containsKey self.request_cache (requestKeyOf synapse) then self.request_cache else self.request_cache ++ [(requestKeyOf synapse, self.metagraph.block)]) }) :=
  rfl

/-- A cache entry whose expiry block has not been passed survives one call
(whatever request the call is for). -/
theorem cache_entry_persists (self : MinerState) (synapse : Inference)
    {k' : String} {B' : Nat} (hmem : (k', B') ∈ self.request_cache)
    (hle : self.metagraph.block ≤ B' + self.config.request_cache_block_span) :
    (k', B') ∈ (is_request_in_cache self synapse).2.request_cache := by
  rw [is_request_in_cache_eq]
  rw [List.mem_filter]
  constructor
  · split
    · exact hmem
    · exact List.mem_append_left _ hmem
  · simp only [Bool.not_eq_eq_eq_not, Bool.not_true, decide_eq_false_iff_not]
    omega

/-- Entries survive a whole sequence of calls whose chain heights stay at
or below the entry's expiry block. -/
theorem processRequests_persists {k' : String} {B' : Nat} :
    ∀ (queries : List (Inference × Nat)) (self : MinerState),
      (k', B') ∈ self.request_cache →
      (∀ q ∈ queries, q.2 ≤ B' + self.config.request_cache_block_span) →
      (k', B') ∈ (processRequests self queries).request_cache
  | [], _, hmem, _ => hmem
  | (syn, b) :: rest, self, hmem, hq => by
      have hble : b ≤ B' + self.config.request_cache_block_span :=
        hq (syn, b) (List.mem_cons_self _ _)
      have hstep : (k', B') ∈ (is_request_in_cache (setBlock self b) syn).2.request_cache :=
        cache_entry_persists (setBlock self b) syn hmem hble
      exact processRequests_persists rest _ hstep
        (fun q hq' => hq q (List.mem_cons_of_mem _ hq'))

/-- What a call does to the stored block of any key already in the cache
(with unique keys): the value is kept verbatim unless the sweep removes
it; it is never refreshed. -/
theorem lookupVal_after_call (self : MinerState) (synapse : Inference)
    (hnd : (self.request_cache.map Prod.fst).Nodup)
    {k' : String} {B' : Nat} (h : lookupVal self.request_cache k' = some B') :
    lookupVal (is_request_in_cache self synapse).2.request_cache k' =
      if B' + self.config.request_cache_block_span < self.metagraph.block then none
      else some B' := by
  rw [is_request_in_cache_eq]
  have hfe : findEntry self.request_cache k' = some (k', B') := findEntry_of_lookupVal h
  by_cases hc : containsKey self.request_cache (requestKeyOf synapse) = true
  · rw [lookupVal, hc, if_pos rfl, findEntry_filter_nodup hnd hfe]
    by_cases hex : B' + self.config.request_cache_block_span < self.metagraph.block
    · simp [hex]
    · simp [hex]
  · have hc' : containsKey self.request_cache (requestKeyOf synapse) = false := by
      simpa using hc
    have hnd1 := nodup_keys_append_fresh
      (b := self.metagraph.block) hnd hc'
    have hfe1 : findEntry
        (self.request_cache ++ [(requestKeyOf synapse, self.metagraph.block)]) k' =
        some (k', B') := by
      rw [findEntry_append, hfe]
      rfl
    rw [lookupVal, hc', if_neg (show ¬(false = true) by simp),
      findEntry_filter_nodup hnd1 hfe1]
    by_cases hex : B' + self.config.request_cache_block_span < self.metagraph.block
    · simp [hex]
    · simp [hex]

/-- A fingerprint not yet cached is recorded at the current block. -/
theorem lookupVal_after_insert (self : MinerState) (synapse : Inference)
    (hc : containsKey self.request_cache (requestKeyOf synapse) = false) :
    lookupVal (is_request_in_cache self synapse).2.request_cache (requestKeyOf synapse) =
      some self.metagraph.block := by
  rw [is_request_in_cache_eq]
  have hnone : ∀ e ∈ self.request_cache.filter
      (fun e =>
        !decide (e.2 + self.config.request_cache_block_span < self.metagraph.block)),
      e.1 ≠ requestKeyOf synapse :=
    fun e he => containsKey_false_iff.mp hc e (List.mem_of_mem_filter he)
  rw [lookupVal, hc, if_neg (show ¬(false = true) by simp), List.filter_append,
    findEntry_append, findEntry_eq_none.mpr hnone, Option.none_or]
  have hkeep : (!decide
      (self.metagraph.block + self.config.request_cache_block_span <
        self.metagraph.block)) = true := by
    simp only [Bool.not_eq_eq_eq_not, Bool.not_true, decide_eq_false_iff_not]
    omega
  simp [findEntry, List.filter_cons, hkeep]

/-! ## Claims about the dedup cache -/

/-- **C6**: each call of `is_request_in_cache` returns true exactly when
the request's fingerprint is already a key of the cache, otherwise inserts
fingerprint → current block and returns false; each call removes exactly
those entries whose recorded block plus `request_cache_block_span` is less
than the current block; hence an entry recorded at block B survives any
sequence of calls at blocks ≤ B + span, and no entry with expiry block
below the current block remains after the sweep. -/
theorem claim_C6 (self : MinerState) (synapse : Inference) :
    ((is_request_in_cache self synapse).1 =
      containsKey self.request_cache (requestKeyOf synapse)) ∧
    (containsKey self.request_cache (requestKeyOf synapse) = false →
      lookupVal (is_request_in_cache self synapse).2.request_cache (requestKeyOf synapse) =
        some self.metagraph.block) ∧
    (∀ e : String × Nat,
      e ∈ (is_request_in_cache self synapse).2.request_cache ↔
        ((e ∈ self.request_cache ∨
            (containsKey self.request_cache (requestKeyOf synapse) = false ∧
             e = (requestKeyOf synapse, self.metagraph.block))) ∧
         ¬(e.2 + self.config.request_cache_block_span < self.metagraph.block))) ∧
    (∀ (k' : String) (B' : Nat) (queries : List (Inference × Nat)),
      (k', B') ∈ self.request_cache →
      (∀ q ∈ queries, q.2 ≤ B' + self.config.request_cache_block_span) →
      (k', B') ∈ (processRequests self queries).request_cache) ∧
    (∀ e : String × Nat,
      e.2 + self.config.request_cache_block_span < self.metagraph.block →
      e ∉ (is_request_in_cache self synapse).2.request_cache) := by
  refine ⟨rfl, lookupVal_after_insert self synapse, ?_, ?_, ?_⟩
  · intro e
    have hmem : e ∈ (is_request_in_cache self synapse).2.request_cache ↔
        e ∈ List.filter
          (fun e => !decide (e.2 + self.config.request_cache_block_span < self.metagraph.block))
          (if containsKey self.request_cache (requestKeyOf synapse) then self.request_cache
           else self.request_cache ++ [(requestKeyOf synapse, self.metagraph.block)]) :=
      Iff.rfl
    rw [hmem, List.mem_filter]
    by_cases hc : containsKey self.request_cache (requestKeyOf synapse) = true
    · rw [if_pos hc]
      constructor
      · rintro ⟨hm, hp⟩
        exact ⟨Or.inl hm, by simpa using hp⟩
      · rintro ⟨hm | ⟨hfalse, _⟩, hp⟩
        · exact ⟨hm, by simpa using hp⟩
        · rw [hc] at hfalse
          cases hfalse
    · have hc' : containsKey self.request_cache (requestKeyOf synapse) = false := by
        simpa using hc
      rw [if_neg hc]
      constructor
      · rintro ⟨hm, hp⟩
        rcases List.mem_append.mp hm with hm | hm
        · exact ⟨Or.inl hm, by simpa using hp⟩
        · exact ⟨Or.inr ⟨hc', List.mem_singleton.mp hm⟩, by simpa using hp⟩
      · rintro ⟨hm | ⟨_, hm⟩, hp⟩
        · exact ⟨List.mem_append_left _ hm, by simpa using hp⟩
        · exact ⟨List.mem_append_right _ (List.mem_singleton.mpr hm), by simpa using hp⟩
  · exact fun k' B' queries hmem hq => processRequests_persists queries self hmem hq
  · intro e hexp hmem
    rw [is_request_in_cache_eq] at hmem
    have := (List.mem_filter.mp hmem).2
    simp only [Bool.not_eq_eq_eq_not, Bool.not_true, decide_eq_false_iff_not] at this
    exact this hexp

/-- **C6 witness**: a fresh fingerprint at block 7 is recorded at block 7. -/
def st6 : MinerState :=
  { config :=
      { whitelist := [], blacklist := [], allow_non_registered := true,
        force_validator_permit := false, min_request_period := 1,
        use_request_cache := true, request_cache_block_span := 100 },
    metagraph := { hotkeys := [], validator_permit := [], block := 7 },
    request_cache := [], request_timestamps := [] }

def syn6 : Inference := { messages := ["what is the weather"], dendrite := { hotkey := "caller6" } }

theorem claim_C6_witness :
    lookupVal (is_request_in_cache st6 syn6).2.request_cache (requestKeyOf syn6) = some 7 :=
  (claim_C6 st6 syn6).2.1 rfl

/-- **C8**: a call preserves key-uniqueness of the cache, and never
rewrites the block recorded for a fingerprint: any previously stored value
is either kept verbatim or removed by the sweep — in particular a
duplicate hit does not refresh the stored first-observation block. -/
theorem claim_C8 (self : MinerState) (synapse : Inference)
    (hnd : (self.request_cache.map Prod.fst).Nodup) :
    ((is_request_in_cache self synapse).2.request_cache.map Prod.fst).Nodup ∧
    (∀ (k' : String) (B' : Nat), lookupVal self.request_cache k' = some B' →
      lookupVal (is_request_in_cache self synapse).2.request_cache k' =
        if B' + self.config.request_cache_block_span < self.metagraph.block then none
        else some B') := by
  constructor
  · rw [is_request_in_cache_eq]
    by_cases hc : containsKey self.request_cache (requestKeyOf synapse) = true
    · simp only [hc, if_pos rfl]
      exact nodup_keys_filter _ hnd
    · have hc' : containsKey self.request_cache (requestKeyOf synapse) = false := by
        simpa using hc
      simp only [hc', if_neg (show ¬(false = true) by simp)]
      exact nodup_keys_filter _ (nodup_keys_append_fresh hnd hc')
  · exact fun k' B' h => lookupVal_after_call self synapse hnd h

def st8 : MinerState :=
  { config :=
      { whitelist := [], blacklist := [], allow_non_registered := true,
        force_validator_permit := false, min_request_period := 1,
        use_request_cache := true, request_cache_block_span := 2 },
    metagraph := { hotkeys := [], validator_permit := [], block := 5 },
    request_cache := [("a", 0), ("b", 3)], request_timestamps := [] }

def syn8 : Inference := { messages := ["hello"], dendrite := { hotkey := "caller8" } }

theorem claim_C8_witness :
    lookupVal (is_request_in_cache st8 syn8).2.request_cache "a" = none ∧
    lookupVal (is_request_in_cache st8 syn8).2.request_cache "b" = some 3 := by
  have ha := (claim_C8 st8 syn8 (by decide)).2 "a" 0 (by decide)
  have hb := (claim_C8 st8 syn8 (by decide)).2 "b" 3 (by decide)
  exact ⟨by simpa using ha, by simpa using hb⟩

/-- **C9**: the fingerprint computed by `is_request_in_cache` — the
SHA-256 hex digest of the JSON serialization of the message list — is a
function of the message sequence alone: two requests with identical
message sequences get identical fingerprints, whatever else (caller
identity) differs. -/
theorem claim_C9 (s1 s2 : Inference) (h : s1.messages = s2.messages) :
    requestKeyOf s1 = requestKeyOf s2 := by
  unfold requestKeyOf
  rw [h]

theorem claim_C9_witness :
    requestKeyOf { messages := ["tell me a joke"], dendrite := { hotkey := "hotkeyA" } } =
    requestKeyOf { messages := ["tell me a joke"], dendrite := { hotkey := "hotkeyB" } } :=
  claim_C9 _ _ rfl

/-- **C10**: the membership check runs before the sweep inside one call,
so a stale entry (expiry block already passed) that no earlier call swept
is still reported as a duplicate by the call that looks it up, and that
same call's sweep then removes it. -/
theorem claim_C10 (self : MinerState) (synapse : Inference) (B0 : Nat)
    (hnd : (self.request_cache.map Prod.fst).Nodup)
    (hlk : lookupVal self.request_cache (requestKeyOf synapse) = some B0)
    (hexp : B0 + self.config.request_cache_block_span < self.metagraph.block) :
    (is_request_in_cache self synapse).1 = true ∧
    lookupVal (is_request_in_cache self synapse).2.request_cache (requestKeyOf synapse) =
      none := by
  constructor
  · rw [is_request_in_cache_eq]
    show containsKey self.request_cache (requestKeyOf synapse) = true
    rw [containsKey, findEntry_of_lookupVal hlk]
    rfl
  · rw [lookupVal_after_call self synapse hnd hlk, if_pos hexp]

def syn10 : Inference := { messages := ["dup"], dendrite := { hotkey := "caller10" } }

def st10 : MinerState :=
  { config :=
      { whitelist := [], blacklist := [], allow_non_registered := true,
        force_validator_permit := false, min_request_period := 1,
        use_request_cache := true, request_cache_block_span := 2 },
    metagraph := { hotkeys := [], validator_permit := [], block := 5 },
    request_cache := [(requestKeyOf syn10, 0)], request_timestamps := [] }

theorem claim_C10_witness :
    (is_request_in_cache st10 syn10).1 = true ∧
    lookupVal (is_request_in_cache st10 syn10).2.request_cache (requestKeyOf syn10) =
      none :=
  claim_C10 st10 syn10 0 (by simp [st10])
    (by simp [st10, lookupVal, findEntry, List.find?_cons]) (by norm_num [st10])

/-! ## Claims about the default blacklist chain -/

/-- When none of the whitelist, blacklist, registration and permit rules
matches, `default_blacklist` falls through to the rate-limit tail. -/
theorem default_blacklist_reaches_rate (now : Int) (self : MinerState) (synapse : Inference)
    (hwl : synapse.dendrite.hotkey ∉ self.config.whitelist)
    (hbl : synapse.dendrite.hotkey ∉ self.config.blacklist)
    (hreg : self.config.allow_non_registered = true ∨
      synapse.dendrite.hotkey ∈ self.metagraph.hotkeys)
    (hpermit : self.config.force_validator_permit = false ∨
      (synapse.dendrite.hotkey ∈ self.metagraph.hotkeys ∧
       self.metagraph.validator_permit[self.metagraph.hotkeys.indexOf
         synapse.dendrite.hotkey]? = some true)) :
    default_blacklist now self synapse = rateLimitRule now self synapse.dendrite.hotkey := by
  have hr3 : ¬(self.config.allow_non_registered = false ∧
      synapse.dendrite.hotkey ∉ self.metagraph.hotkeys) := by
    rcases hreg with h | h
    · rintro ⟨h1, _⟩
      rw [h] at h1
      cases h1
    · rintro ⟨_, h2⟩
      exact h2 h
  simp only [default_blacklist]
  rw [if_neg hwl, if_neg hbl, if_neg hr3]
  rcases hpermit with hf | ⟨hmem, hp⟩
  · rw [hf]
    simp
  · by_cases hforce : self.config.force_validator_permit = true
    · rw [if_pos hforce, if_pos hmem, hp]
      simp
    · rw [if_neg hforce]

/-- **C5**: `default_blacklist` applies its rules in order with first
match winning: whitelist allow, blacklist reject, registration reject
(when `allow_non_registered` is false), validator-permit reject (when
`force_validator_permit` is true, with a distinct reason for an
unregistered caller), rate-limit reject, otherwise allow.  In particular
a caller in both lists is allowed (conjunct 1 needs no blacklist
hypothesis), and an unregistered, non-listed caller with
`allow_non_registered = false` is rejected as unregistered for every
rate-limit state (conjunct 3 holds for arbitrary `request_timestamps`). -/
theorem claim_C5 (now : Int) (self : MinerState) (synapse : Inference) :
    (synapse.dendrite.hotkey ∈ self.config.whitelist →
      default_blacklist now self synapse = some (false, "whitelisted hotkey")) ∧
    (synapse.dendrite.hotkey ∉ self.config.whitelist →
     synapse.dendrite.hotkey ∈ self.config.blacklist →
      default_blacklist now self synapse = some (true, "blacklisted hotkey")) ∧
    (synapse.dendrite.hotkey ∉ self.config.whitelist →
     synapse.dendrite.hotkey ∉ self.config.blacklist →
     self.config.allow_non_registered = false →
     synapse.dendrite.hotkey ∉ self.metagraph.hotkeys →
      default_blacklist now self synapse = some (true, "hotkey not registered")) ∧
    (synapse.dendrite.hotkey ∉ self.config.whitelist →
     synapse.dendrite.hotkey ∉ self.config.blacklist →
     self.config.allow_non_registered = true →
     self.config.force_validator_permit = true →
     synapse.dendrite.hotkey ∉ self.metagraph.hotkeys →
      default_blacklist now self synapse =
        some (true, "validator permit required, but hotkey not registered")) ∧
    (synapse.dendrite.hotkey ∉ self.config.whitelist →
     synapse.dendrite.hotkey ∉ self.config.blacklist →
     self.config.force_validator_permit = true →
     synapse.dendrite.hotkey ∈ self.metagraph.hotkeys →
     self.metagraph.validator_permit[self.metagraph.hotkeys.indexOf
       synapse.dendrite.hotkey]? = some false →
      default_blacklist now self synapse = some (true, "validator permit required")) ∧
    (synapse.dendrite.hotkey ∉ self.config.whitelist →
     synapse.dendrite.hotkey ∉ self.config.blacklist →
     (self.config.allow_non_registered = true ∨
       synapse.dendrite.hotkey ∈ self.metagraph.hotkeys) →
     (self.config.force_validator_permit = false ∨
       (synapse.dendrite.hotkey ∈ self.metagraph.hotkeys ∧
        self.metagraph.validator_permit[self.metagraph.hotkeys.indexOf
          synapse.dendrite.hotkey]? = some true)) →
     (∀ (t0 : Int) (rest : List Int),
       lookupVal self.request_timestamps synapse.dendrite.hotkey = some (t0 :: rest) →
       now - t0 < (self.config.min_request_period : Int) * 60 →
        default_blacklist now self synapse =
          some (true, rateLimitReason synapse.dendrite.hotkey (rest.length + 1)
            self.config.min_request_period))) ∧
    (synapse.dendrite.hotkey ∉ self.config.whitelist →
     synapse.dendrite.hotkey ∉ self.config.blacklist →
     (self.config.allow_non_registered = true ∨
       synapse.dendrite.hotkey ∈ self.metagraph.hotkeys) →
     (self.config.force_validator_permit = false ∨
       (synapse.dendrite.hotkey ∈ self.metagraph.hotkeys ∧
        self.metagraph.validator_permit[self.metagraph.hotkeys.indexOf
          synapse.dendrite.hotkey]? = some true)) →
     (lookupVal self.request_timestamps synapse.dendrite.hotkey = none ∨
      (∃ (t0 : Int) (rest : List Int),
        lookupVal self.request_timestamps synapse.dendrite.hotkey = some (t0 :: rest) ∧
        (self.config.min_request_period : Int) * 60 ≤ now - t0)) →
      default_blacklist now self synapse = some (false, "passed blacklist")) := by
  refine ⟨?_, ?_, ?_, ?_, ?_, ?_, ?_⟩
  · intro h1
    simp only [default_blacklist]
    rw [if_pos h1]
  · intro h1 h2
    simp only [default_blacklist]
    rw [if_neg h1, if_pos h2]
  · intro h1 h2 h3 h4
    simp only [default_blacklist]
    rw [if_neg h1, if_neg h2, if_pos ⟨h3, h4⟩]
  · intro h1 h2 h3 h4 h5
    have hr3 : ¬(self.config.allow_non_registered = false ∧
        synapse.dendrite.hotkey ∉ self.metagraph.hotkeys) := by
      rintro ⟨ha, _⟩
      rw [h3] at ha
      cases ha
    simp only [default_blacklist]
    rw [if_neg h1, if_neg h2, if_neg hr3, if_pos h4, if_neg h5]
  · intro h1 h2 h3 h4 h5
    have hr3 : ¬(self.config.allow_non_registered = false ∧
        synapse.dendrite.hotkey ∉ self.metagraph.hotkeys) := by
      rintro ⟨_, hn⟩
      exact hn h4
    simp only [default_blacklist]
    rw [if_neg h1, if_neg h2, if_neg hr3, if_pos h3, if_pos h4, h5]
    simp
  · intro h1 h2 h3 h4 t0 rest hlk hlt
    rw [default_blacklist_reaches_rate now self synapse h1 h2 h3 h4]
    simp only [rateLimitRule, hlk, List.head?_cons]
    rw [if_pos hlt]
    simp
  · intro h1 h2 h3 h4 h5
    rw [default_blacklist_reaches_rate now self synapse h1 h2 h3 h4]
    rcases h5 with h5 | ⟨t0, rest, hlk, hge⟩
    · simp [rateLimitRule, h5]
    · simp only [rateLimitRule, hlk, List.head?_cons]
      rw [if_neg (not_lt.mpr hge)]

def st5 : MinerState :=
  { config :=
      { whitelist := ["h5"], blacklist := ["h5"], allow_non_registered := false,
        force_validator_permit := true, min_request_period := 1,
        use_request_cache := true, request_cache_block_span := 100 },
    metagraph := { hotkeys := [], validator_permit := [], block := 0 },
    request_cache := [], request_timestamps := [] }

def syn5 : Inference := { messages := ["m"], dendrite := { hotkey := "h5" } }

/-- **C5 witness**: a caller in both the whitelist and the blacklist is
allowed. -/
theorem claim_C5_witness :
    default_blacklist 0 st5 syn5 = some (false, "whitelisted hotkey") :=
  (claim_C5 0 st5 syn5).1 (by decide)

/-- **C7**: with the earlier rules passing, `min_request_period = 1`
minute and an earliest recorded timestamp `t0`, a request less than 60
seconds later is rejected with the reason naming the caller, the recorded
request count and the period, and a request at least 60 seconds later is
not rejected by the rate-limit rule. -/
theorem claim_C7 (self : MinerState) (synapse : Inference) (now t0 : Int) (rest : List Int)
    (hwl : synapse.dendrite.hotkey ∉ self.config.whitelist)
    (hbl : synapse.dendrite.hotkey ∉ self.config.blacklist)
    (hreg : self.config.allow_non_registered = true ∨
      synapse.dendrite.hotkey ∈ self.metagraph.hotkeys)
    (hpermit : self.config.force_validator_permit = false ∨
      (synapse.dendrite.hotkey ∈ self.metagraph.hotkeys ∧
       self.metagraph.validator_permit[self.metagraph.hotkeys.indexOf
         synapse.dendrite.hotkey]? = some true))
    (hts : lookupVal self.request_timestamps synapse.dendrite.hotkey = some (t0 :: rest))
    (hmin : self.config.min_request_period = 1) :
    (now - t0 < 60 →
      default_blacklist now self synapse =
        some (true, rateLimitReason synapse.dendrite.hotkey (rest.length + 1) 1)) ∧
    (60 ≤ now - t0 →
      default_blacklist now self synapse = some (false, "passed blacklist")) := by
  have hrate := default_blacklist_reaches_rate now self synapse hwl hbl hreg hpermit
  constructor
  · intro hlt
    rw [hrate]
    simp only [rateLimitRule, hts, List.head?_cons, hmin]
    rw [if_pos (by push_cast; omega)]
    simp
  · intro hge
    rw [hrate]
    simp only [rateLimitRule, hts, List.head?_cons, hmin]
    rw [if_neg (by push_cast; omega)]

def st7 : MinerState :=
  { config :=
      { whitelist := [], blacklist := [], allow_non_registered := true,
        force_validator_permit := false, min_request_period := 1,
        use_request_cache := true, request_cache_block_span := 100 },
    metagraph := { hotkeys := [], validator_permit := [], block := 0 },
    request_cache := [], request_timestamps := [("h7", [0])] }

def syn7 : Inference := { messages := ["m"], dendrite := { hotkey := "h7" } }

/-- **C7 witness**: earliest timestamp T = 0; a request at T+30s is
rejected with the caller, count and period in the reason; a request at
T+61s passes. -/
theorem claim_C7_witness :
    default_blacklist 30 st7 syn7 =
      some (true, "h7 request frequency exceeded 1 requests in 1 minutes.") ∧
    default_blacklist 61 st7 syn7 = some (false, "passed blacklist") := by
  have h30 := (claim_C7 st7 syn7 30 0 [] (by decide) (by decide) (Or.inl rfl)
    (Or.inl rfl) (by decide) rfl).1 (by decide)
  have h61 := (claim_C7 st7 syn7 61 0 [] (by decide) (by decide) (Or.inl rfl)
    (Or.inl rfl) (by decide) rfl).2 (by decide)
  exact ⟨h30, h61⟩

/-! ## Claim about the blacklist wrapper -/

theorem rateLimitReason_length (hk : String) (n m : Nat) :
    0 < (rateLimitReason hk n m).length := by
  rw [rateLimitReason]
  simp only [String.length_append]
  have h9 : 0 < " minutes.".length := by decide
  omega

theorem rateLimitReason_ne_empty (hk : String) (n m : Nat) :
    rateLimitReason hk n m ≠ "" := by
  intro h
  have hl := rateLimitReason_length hk n m
  rw [h] at hl
  exact absurd hl (by decide)

/-- On well-formed state the rate-limit tail returns a decision with a
non-empty reason. -/
theorem rateLimitRule_wf (now : Int) (self : MinerState) (hk : String)
    (hwf1 : ∀ p ∈ self.request_timestamps, p.2 ≠ []) :
    ∃ b r, rateLimitRule now self hk = some (b, r) ∧ r ≠ "" := by
  rcases hts : lookupVal self.request_timestamps hk with _ | ts
  · exact ⟨false, "passed blacklist", by simp [rateLimitRule, hts], by decide⟩
  · have hne : ts ≠ [] := hwf1 (hk, ts) (lookupVal_some_spec hts)
    rcases ts with _ | ⟨t0, rest⟩
    · cases hne rfl
    · by_cases hlt : now - t0 < (self.config.min_request_period : Int) * 60
      · exact ⟨true, rateLimitReason hk (rest.length + 1) self.config.min_request_period,
          by simp [rateLimitRule, hts, hlt], rateLimitReason_ne_empty _ _ _⟩
      · exact ⟨false, "passed blacklist", by simp [rateLimitRule, hts, hlt], by decide⟩

/-- On well-formed state `default_blacklist` returns a decision with a
non-empty reason (it cannot raise). -/
theorem default_blacklist_wf (now : Int) (self : MinerState) (synapse : Inference)
    (hwf : WFMiner self) :
    ∃ b r, default_blacklist now self synapse = some (b, r) ∧ r ≠ "" := by
  obtain ⟨hwf1, hwf2⟩ := hwf
  simp only [default_blacklist]
  by_cases h1 : synapse.dendrite.hotkey ∈ self.config.whitelist
  · rw [if_pos h1]
    exact ⟨_, _, rfl, by decide⟩
  rw [if_neg h1]
  by_cases h2 : synapse.dendrite.hotkey ∈ self.config.blacklist
  · rw [if_pos h2]
    exact ⟨_, _, rfl, by decide⟩
  rw [if_neg h2]
  by_cases h3 : self.config.allow_non_registered = false ∧
      synapse.dendrite.hotkey ∉ self.metagraph.hotkeys
  · rw [if_pos h3]
    exact ⟨_, _, rfl, by decide⟩
  rw [if_neg h3]
  by_cases h4 : self.config.force_validator_permit = true
  · rw [if_pos h4]
    by_cases h5 : synapse.dendrite.hotkey ∈ self.metagraph.hotkeys
    · rw [if_pos h5]
      have hlt : self.metagraph.hotkeys.indexOf synapse.dendrite.hotkey <
          self.metagraph.validator_permit.length :=
        lt_of_lt_of_le (List.indexOf_lt_length.mpr h5) hwf2
      simp only [List.getElem?_eq_getElem hlt]
      by_cases h6 : self.metagraph.validator_permit[self.metagraph.hotkeys.indexOf
          synapse.dendrite.hotkey] = false
      · rw [if_pos h6]
        exact ⟨_, _, rfl, by decide⟩
      · rw [if_neg h6]
        exact rateLimitRule_wf now self _ hwf1
    · rw [if_neg h5]
      exact ⟨_, _, rfl, by decide⟩
  · rw [if_neg h4]
    exact rateLimitRule_wf now self _ hwf1

/-- **C4** (amended): on well-formed miner state the wrapper `blacklist`
always returns a decision (no exception escapes: the override's
`NotImplementedError`, any other exception, and a missing verdict all fall
back to `default_blacklist`); the reason of the returned decision is
non-empty except in the one case where the override returns a pair whose
reason is the empty string, which the wrapper returns verbatim. -/
theorem claim_C4 (now : Int) (self : MinerState) (func : OverrideResult)
    (synapse : Inference) (hwf : WFMiner self) :
    (∃ d, blacklist now self func synapse = some d) ∧
    (∀ b r, blacklist now self func synapse = some (b, r) →
      r ≠ "" ∨ ∃ b', func = OverrideResult.returns (PyRet.pyPair (some b') "")) ∧
    ((func = OverrideResult.raisesNotImplemented ∨ func = OverrideResult.raisesOther ∨
      func = OverrideResult.returns PyRet.pyNone ∨
      (∃ r0, func = OverrideResult.returns (PyRet.pyPair none r0))) →
      blacklist now self func synapse = default_blacklist now self synapse) := by
  obtain ⟨b0, r0, hdb, hr0⟩ := default_blacklist_wf now self synapse hwf
  refine ⟨?_, ?_, ?_⟩
  · cases func with
    | raisesNotImplemented => exact ⟨_, hdb⟩
    | raisesOther => exact ⟨_, hdb⟩
    | returns v =>
      cases v with
      | pyNone => exact ⟨_, hdb⟩
      | pyBool b => exact ⟨_, rfl⟩
      | pyPair ob rr =>
        cases ob with
        | none => exact ⟨_, hdb⟩
        | some b => exact ⟨_, rfl⟩
  · intro b r h
    cases func with
    | raisesNotImplemented =>
      have h' : default_blacklist now self synapse = some (b, r) := h
      rw [hdb] at h'
      have hpr := Option.some.inj h'
      rw [Prod.mk.injEq] at hpr
      exact Or.inl (hpr.2 ▸ hr0)
    | raisesOther =>
      have h' : default_blacklist now self synapse = some (b, r) := h
      rw [hdb] at h'
      have hpr := Option.some.inj h'
      rw [Prod.mk.injEq] at hpr
      exact Or.inl (hpr.2 ▸ hr0)
    | returns v =>
      cases v with
      | pyNone =>
        have h' : default_blacklist now self synapse = some (b, r) := h
        rw [hdb] at h'
        have hpr := Option.some.inj h'
        rw [Prod.mk.injEq] at hpr
        exact Or.inl (hpr.2 ▸ hr0)
      | pyBool b' =>
        have h' : (some (b', "no reason provided") : Option (Bool × String)) = some (b, r) := h
        have hpr := Option.some.inj h'
        rw [Prod.mk.injEq] at hpr
        refine Or.inl ?_
        rw [← hpr.2]
        decide
      | pyPair ob rr =>
        cases ob with
        | none =>
          have h' : default_blacklist now self synapse = some (b, r) := h
          rw [hdb] at h'
          have hpr := Option.some.inj h'
          rw [Prod.mk.injEq] at hpr
          exact Or.inl (hpr.2 ▸ hr0)
        | some b' =>
          have h' : (some (b', rr) : Option (Bool × String)) = some (b, r) := h
          have hpr := Option.some.inj h'
          rw [Prod.mk.injEq] at hpr
          by_cases hrr : rr = ""
          · exact Or.inr ⟨b', by rw [hrr]⟩
          · exact Or.inl (hpr.2 ▸ hrr)
  · rintro (rfl | rfl | rfl | ⟨r0', rfl⟩) <;> rfl

def st4 : MinerState :=
  { config :=
      { whitelist := [], blacklist := [], allow_non_registered := true,
        force_validator_permit := false, min_request_period := 1,
        use_request_cache := true, request_cache_block_span := 100 },
    metagraph := { hotkeys := ["h4"], validator_permit := [true], block := 0 },
    request_cache := [], request_timestamps := [("x4", [5])] }

def syn4 : Inference := { messages := ["m"], dendrite := { hotkey := "h4" } }

/-- **C4 counterexample**: an override that returns the pair
`(True, "")` makes the wrapper return a decision with an empty reason,
so the decision is not always well-formed in the claimed sense. -/
theorem claim_C4_counterexample :
    blacklist 0 st4 (OverrideResult.returns (PyRet.pyPair (some true) "")) syn4 =
      some (true, "") :=
  rfl

theorem claim_C4_witness :
    blacklist 0 st4 OverrideResult.raisesOther syn4 = default_blacklist 0 st4 syn4 ∧
    (∃ d, blacklist 0 st4 OverrideResult.raisesOther syn4 = some d) := by
  have hwf : WFMiner st4 := ⟨by simp [st4], by simp [st4]⟩
  have h := claim_C4 0 st4 OverrideResult.raisesOther syn4 hwf
  exact ⟨h.2.2 (Or.inr (Or.inl rfl)), h.1⟩

/-! ## Claims about the admission wrapper and the control loop -/

/-- **C1** (divergence evidence): with `use_request_cache` enabled,
`_predict` raises its `ValueError` for every request — even one whose
fingerprint is not in the cache — because the un-awaited coroutine object
returned by `is_request_in_cache` is truthy; the intended semantics
(`Miner.predictIntended`, per `_predict`'s docstring and the spec) would
delegate such a request to `predict`. -/
theorem claim_C1 (self : MinerState) (synapse : Inference)
    (predict : Inference → Inference)
    (hon : self.config.use_request_cache = true)
    (hfresh : containsKey self.request_cache (requestKeyOf synapse) = false) :
    Miner._predict self synapse predict =
      Except.error (cacheRejectMessage self.config.request_cache_block_span) ∧
    (Miner.predictIntended self synapse predict).1 = Except.ok (predict synapse) := by
  constructor
  · rw [Miner._predict, if_pos hon]
    rfl
  · rw [Miner.predictIntended, if_pos hon]
    have h1 : (is_request_in_cache self synapse).1 = false := by
      rw [is_request_in_cache_eq]
      exact hfresh
    simp only [h1]
    rfl

def st1 : MinerState :=
  { config :=
      { whitelist := [], blacklist := [], allow_non_registered := true,
        force_validator_permit := false, min_request_period := 1,
        use_request_cache := true, request_cache_block_span := 3 },
    metagraph := { hotkeys := [], validator_permit := [], block := 0 },
    request_cache := [], request_timestamps := [] }

def syn1 : Inference := { messages := ["fresh request"], dendrite := { hotkey := "h1" } }

theorem claim_C1_witness :
    Miner._predict st1 syn1 id = Except.error (cacheRejectMessage 3) ∧
    (Miner.predictIntended st1 syn1 id).1 = Except.ok syn1 :=
  claim_C1 st1 syn1 id rfl rfl

/-- **C2** (divergence evidence): the `try/except` of run.py wraps the
whole `while` loop, so a single raising iteration ends the loop: with an
exception in iteration 0 and every later iteration fine, `run`'s loop
returns through the `except Exception` handler with `step = 0` and never
reaches iteration 1.  (The second equation shows the true half of the
claim: on failure-free iterations `step` goes up exactly once per
iteration.) -/
theorem claim_C2 :
    runLoop (fun _ => false) (fun i => if i = 0 then IterEvent.raises else IterEvent.ok)
        10 0 0 = RunOutcome.errorReturn 0 false ∧
    runLoop (fun _ => false) (fun _ => IterEvent.ok) 3 0 0 = RunOutcome.stillRunning 3 :=
  ⟨rfl, rfl⟩

/-- **C3** (amended): both cancellation paths end the loop without an
error outcome; the axon is stopped on the interrupt path, while on the
`should_exit` path `run` returns without calling `axon.stop()`. -/
theorem claim_C3 (shouldExit : Nat → Bool) (events : Nat → IterEvent) (fuel i step : Nat) :
    (shouldExit i = true →
      runLoop shouldExit events (fuel + 1) i step = RunOutcome.normalReturn step false) ∧
    (shouldExit i = false → events i = IterEvent.interrupt →
      runLoop shouldExit events (fuel + 1) i step = RunOutcome.interruptExit step true) := by
  constructor
  · intro h
    simp [runLoop, h]
  · intro h hint
    simp [runLoop, h, hint]

/-- **C3 counterexample**: on the `should_exit` cancellation path the loop
exits cleanly but the axon is *not* stopped (`axonStopped = false`),
refuting "the external transport server is stopped … on both cancellation
paths". -/
theorem claim_C3_counterexample :
    runLoop (fun _ => true) (fun _ => IterEvent.ok) 5 0 0 =
      RunOutcome.normalReturn 0 false :=
  rfl

theorem claim_C3_witness :
    runLoop (fun _ => true) (fun _ => IterEvent.ok) 4 0 2 =
      RunOutcome.normalReturn 2 false ∧
    runLoop (fun _ => false) (fun _ => IterEvent.interrupt) 4 0 2 =
      RunOutcome.interruptExit 2 true :=
  ⟨(claim_C3 (fun _ => true) (fun _ => IterEvent.ok) 3 0 2).1 rfl,
   (claim_C3 (fun _ => false) (fun _ => IterEvent.interrupt) 3 0 2).2 rfl rfl⟩

end NimbleMiners
